import Mathlib

/-! Shallow embedding of `src/dcx-coach-api/app.py` (DCX Planning Coach API).

The Python service stores `Project` rows in a SQLite table and exposes four
operations: `create_project`, `list_projects`, `get_project`,
`update_project_steps`.  We model the table as a `List Project` (rows in
insertion order; `query(...).first()` is `List.find?`), `datetime` as `Nat`,
and Python `Optional` as `Option`.  Pydantic request validation (the `Field`
patterns and bounds) runs before each handler, so the embedded operations
check it first and return `Except ApiError`.  SQLite `LIKE` is modelled with
its documented semantics: `%` matches any sequence, `_` any single character,
and ASCII letters compare case-insensitively.
-/

namespace DcxCoach

/-- Error kinds of the service: pydantic/FastAPI validation failures (HTTP 422)
and the explicit `HTTPException(status_code=404)` raised by the handlers. -/
inductive ApiError where
  | validation
  | notFound
  deriving DecidableEq, Repr

/-- Embedding of the SQLAlchemy `Project` row (`app.py` lines 19-37).
`datetime` columns are modelled as `Nat` instants; `last_step` is a Python
`int`, modelled as `Int`. -/
structure Project where
  project_id : String
  title : String
  mode : String
  description : Option String
  last_step : Int
  step0 : Option String
  step1 : Option String
  step2 : Option String
  step3 : Option String
  step4 : Option String
  step5 : Option String
  created_at : Nat
  updated_at : Nat
  deriving DecidableEq, Repr

/-- Embedding of pydantic `CreateProjectRequest` (`app.py` lines 46-49). -/
structure CreateProjectRequest where
  title : String
  mode : String
  description : Option String
  deriving DecidableEq, Repr

/-- Embedding of pydantic `CreateProjectResponse` (`app.py` lines 51-52). -/
structure CreateProjectResponse where
  project_id : String
  deriving DecidableEq, Repr

/-- Embedding of pydantic `ProjectListItem` (`app.py` lines 54-59). -/
structure ProjectListItem where
  project_id : String
  title : String
  mode : String
  last_step : Int
  updated_at : Nat
  deriving DecidableEq, Repr

/-- Embedding of pydantic `ProjectDetail` (`app.py` lines 61-67); the `steps`
dict is an association list in key order. -/
structure ProjectDetail where
  project_id : String
  title : String
  mode : String
  description : Option String
  last_step : Int
  steps : List (String × Option String)
  deriving DecidableEq, Repr

/-- Embedding of pydantic `UpdateProjectStepsRequest` (`app.py` lines 69-71).
A Python dict is an association list whose keys are pairwise distinct; a key
mapped to `none` means "clear this slot", an absent key leaves it alone. -/
structure UpdateProjectStepsRequest where
  last_step : Option Int
  steps : Option (List (String × Option String))
  deriving DecidableEq, Repr

/-- Pydantic pattern `^(contest|education|startup)$` on `mode`
(`app.py` lines 48 and 131). -/
def validMode (m : String) : Bool :=
  decide (m = "contest") || decide (m = "education") || decide (m = "startup")

/-- Pydantic bounds `ge=0, le=5` on the optional `last_step`
(`app.py` line 70). -/
def validUpdateReq (req : UpdateProjectStepsRequest) : Bool :=
  match req.last_step with
  | none => true
  | some n => decide (0 ≤ n) && decide (n ≤ 5)

/-- Python truthiness of an optional string (`if query:` / `if mode:`,
`app.py` lines 137 and 140): `None` and `""` are falsy. -/
def strTruthy : Option String → Bool
  | none => false
  | some s => !s.isEmpty

/-- Python truthiness of the optional steps dict (`if req.steps:`,
`app.py` line 186): `None` and the empty dict are falsy. -/
def stepsTruthy : Option (List (String × Option String)) → Bool
  | none => false
  | some l => !l.isEmpty

/-- The `allowed` slot-name set of `normalize_steps` (`app.py` line 86),
as a list in slot order. -/
def allowedSteps : List String :=
  ["step0", "step1", "step2", "step3", "step4", "step5"]

/-- Embedding of `normalize_steps` (`app.py` lines 85-87): the dict
comprehension keeps exactly the entries whose key is an allowed slot name,
values unchanged, in input order. -/
def normalize_steps (steps : List (String × Option String)) :
    List (String × Option String) :=
  steps.filter (fun kv => decide (kv.1 ∈ allowedSteps))

/-- Embedding of `get_steps_dict` (`app.py` lines 89-97): the six-slot dict
read back from a row. -/
def get_steps_dict (p : Project) : List (String × Option String) :=
  [("step0", p.step0), ("step1", p.step1), ("step2", p.step2),
   ("step3", p.step3), ("step4", p.step4), ("step5", p.step5)]

/-- Embedding of one `setattr(p, k, v)` in the update loop
(`app.py` line 189): writes the named slot column, anything else is a no-op
(after normalization only the six slot names reach it). -/
def setStep (p : Project) (k : String) (v : Option String) : Project :=
  if k = "step0" then { p with step0 := v }
  else if k = "step1" then { p with step1 := v }
  else if k = "step2" then { p with step2 := v }
  else if k = "step3" then { p with step3 := v }
  else if k = "step4" then { p with step4 := v }
  else if k = "step5" then { p with step5 := v }
  else p

/-- Reads the slot column named `k` from a row (`none` for a non-slot name);
used only to state theorems about the slot columns uniformly. -/
def stepVal (p : Project) (k : String) : Option String :=
  if k = "step0" then p.step0
  else if k = "step1" then p.step1
  else if k = "step2" then p.step2
  else if k = "step3" then p.step3
  else if k = "step4" then p.step4
  else if k = "step5" then p.step5
  else none

/-- Lookup in an association list where the LAST binding of a key wins —
the value a Python dict built from these entries would hold (`setattr` in
the update loop likewise lets the last write win). -/
def lookupLast (l : List (String × Option String)) (k : String) :
    Option (Option String) :=
  match l with
  | [] => none
  | kv :: rest =>
      match lookupLast rest k with
      | some v => some v
      | none => if kv.1 = k then some kv.2 else none

/-- Body of `update_project_steps` after the row is found
(`app.py` lines 183-191): optionally overwrite `last_step`, run the
normalized step writes, stamp `updated_at`. -/
def applyUpdate (req : UpdateProjectStepsRequest) (now : Nat) (p : Project) :
    Project :=
  let p1 := match req.last_step with
            | some n => { p with last_step := n }
            | none => p
  let p2 := if stepsTruthy req.steps then
              (normalize_steps (req.steps.getD [])).foldl
                (fun q kv => setStep q kv.1 kv.2) p1
            else p1
  { p2 with updated_at := now }

/-- Applies `f` to the first row whose `project_id` matches, leaving every
other row untouched — the effect of mutating the row returned by
`query(Project).filter(Project.project_id == pid).first()` and committing. -/
def replaceFirst (db : List Project) (pid : String) (f : Project → Project) :
    List Project :=
  match db with
  | [] => []
  | p :: rest =>
      if p.project_id = pid then f p :: rest
      else p :: replaceFirst rest pid f

/-- The fresh row built by `create_project` (`app.py` lines 113-121). -/
def mkProject (req : CreateProjectRequest) (newId : String) (now : Nat) :
    Project :=
  { project_id := newId
    title := req.title
    mode := req.mode
    description := req.description
    last_step := 0
    step0 := none, step1 := none, step2 := none
    step3 := none, step4 := none, step5 := none
    created_at := now
    updated_at := now }

/-- Embedding of `POST /projects` (`app.py` lines 108-126) together with the
pydantic validation of its request: on success the new row is appended to the
table and its id returned. -/
def create_project (db : List Project) (req : CreateProjectRequest)
    (newId : String) (now : Nat) :
    Except ApiError (List Project × CreateProjectResponse) :=
  if validMode req.mode then
    .ok (db ++ [mkProject req newId now], { project_id := newId })
  else
    .error .validation

/-- Embedding of `GET /projects/{project_id}` (`app.py` lines 157-173). -/
def get_project (db : List Project) (pid : String) :
    Except ApiError ProjectDetail :=
  match db.find? (fun p => decide (p.project_id = pid)) with
  | none => .error .notFound
  | some p =>
      .ok { project_id := p.project_id
            title := p.title
            mode := p.mode
            description := p.description
            last_step := p.last_step
            steps := get_steps_dict p }

/-- Embedding of `PATCH /projects/{project_id}` (`app.py` lines 175-195)
together with the pydantic validation of its request: on success the mutated
table and the `{"status": "updated"}` payload are returned; on failure the
table is untouched. -/
def update_project_steps (db : List Project) (pid : String)
    (req : UpdateProjectStepsRequest) (now : Nat) :
    Except ApiError (List Project × String) :=
  if validUpdateReq req then
    match db.find? (fun p => decide (p.project_id = pid)) with
    | none => .error .notFound
    | some _ => .ok (replaceFirst db pid (applyUpdate req now), "updated")
  else
    .error .validation

/-- ASCII-only lower-casing, as SQLite applies to `LIKE` operands: only the
letters A-Z fold, every other character (including non-ASCII) is unchanged. -/
def asciiLower (c : Char) : Char :=
  if 'A' ≤ c ∧ c ≤ 'Z' then Char.ofNat (c.toNat + 32) else c

/-- Fuel-indexed worker for SQLite `LIKE` matching; every recursive call
shortens the pattern or the text, so fuel `p.length + s.length` never runs
out (the `0` equation is unreachable from `likeMatch`). -/
def likeMatchAux : Nat → List Char → List Char → Bool
  | _, [], [] => true
  | _, [], _ :: _ => false
  | 0, _ :: _, _ => false
  | fuel + 1, pc :: ps, s =>
      if pc = '%' then
        likeMatchAux fuel ps s ||
          (match s with
           | [] => false
           | _ :: s' => likeMatchAux fuel (pc :: ps) s')
      else if pc = '_' then
        (match s with
         | [] => false
         | _ :: s' => likeMatchAux fuel ps s')
      else
        (match s with
         | [] => false
         | c :: s' => decide (asciiLower pc = asciiLower c) && likeMatchAux fuel ps s')

/-- SQLite `LIKE` pattern matching (the semantics behind
`Project.title.like(like)` on the SQLite backend, `app.py` line 139):
`%` matches any sequence of characters, `_` matches exactly one character,
and any other pattern character matches a text character ASCII
case-insensitively. -/
def likeMatch (p s : List Char) : Bool :=
  likeMatchAux (p.length + s.length) p s

/-- The title filter of `list_projects` (`app.py` lines 137-139): the caller's
query is embedded unescaped between two `%` wildcards and matched with
SQLite `LIKE` against the title. -/
def titleLike (query : String) (title : String) : Bool :=
  likeMatch ("%" ++ query ++ "%").data title.data

/-- The `ProjectListItem` built for a row (`app.py` lines 145-151). -/
def summarize (p : Project) : ProjectListItem :=
  { project_id := p.project_id
    title := p.title
    mode := p.mode
    last_step := p.last_step
    updated_at := p.updated_at }

/-- The `ORDER BY updated_at DESC` comparison: `p` may come before `q` when
its timestamp is at least as recent. -/
def updatedGe (p q : Project) : Prop :=
  q.updated_at ≤ p.updated_at

instance : DecidableRel updatedGe := fun _ _ => Nat.decLe _ _

instance : IsTotal Project updatedGe := ⟨fun p q => Nat.le_total q.updated_at p.updated_at⟩

instance : IsTrans Project updatedGe := ⟨fun _ _ _ h1 h2 => Nat.le_trans h2 h1⟩

/-- The two successive `q.filter(...)` refinements of `list_projects`
(`app.py` lines 136-141): restrict by title `LIKE` when `query` is truthy,
then by exact mode when `mode` is truthy. -/
def filterRows (db : List Project) (query : Option String)
    (mode : Option String) : List Project :=
  let rows := db
  let rows := if strTruthy query then
                rows.filter (fun p => titleLike (query.getD "") p.title)
              else rows
  let rows := if strTruthy mode then
                rows.filter (fun p => decide (p.mode = mode.getD ""))
              else rows
  rows

/-- FastAPI validation of the optional `mode` query parameter
(`app.py` line 131): absent is fine, a supplied value must match the
three-mode pattern. -/
def modeOk : Option String → Bool
  | none => true
  | some m => validMode m

/-- Embedding of `GET /projects` (`app.py` lines 128-155) together with the
FastAPI validation of its query parameters (`mode` pattern, `limit` bounds):
filter by title `LIKE` and by mode when truthy, order by `updated_at`
descending, truncate to `limit`, and summarize each remaining row. -/
def list_projects (db : List Project) (query : Option String)
    (mode : Option String) (limit : Int) :
    Except ApiError (List ProjectListItem) :=
  if decide (1 ≤ limit) && decide (limit ≤ 200) && modeOk mode then
    .ok (((List.insertionSort updatedGe (filterRows db query mode)).take
      limit.toNat).map summarize)
  else
    .error .validation

/-- Specification-side reading of the listing filters (used to state the
amended listing claim): a row passes when it satisfies the title condition
whenever a truthy text query is present, and the mode condition whenever a
truthy mode is present. -/
def listFilterSpec (query mode : Option String) (p : Project) : Prop :=
  (strTruthy query = true → titleLike (query.getD "") p.title = true) ∧
  (strTruthy mode = true → p.mode = mode.getD "")

instance (query mode : Option String) (p : Project) :
    Decidable (listFilterSpec query mode p) := by
  unfold listFilterSpec
  infer_instance

/-- One external mutating request, with the ambient data a real call carries
(the generated UUID for a create, the wall-clock instant). -/
inductive Op where
  | create (req : CreateProjectRequest) (newId : String) (now : Nat)
  | update (pid : String) (req : UpdateProjectStepsRequest) (now : Nat)
  deriving Repr

/-- State transition of the table under one external request: a failed
request (validation or not-found) raises before any write, leaving the
table as it was. -/
def applyOp (db : List Project) : Op → List Project
  | .create req newId now =>
      match create_project db req newId now with
      | .ok (db', _) => db'
      | .error _ => db
  | .update pid req now =>
      match update_project_steps db pid req now with
      | .ok (db', _) => db'
      | .error _ => db

/-- Tables reachable from the empty table through any sequence of external
create and update requests. -/
inductive Reachable : List Project → Prop
  | nil : Reachable []
  | step {db : List Project} (op : Op) : Reachable db → Reachable (applyOp db op)

/-- Sample row shared by the concrete witnesses below. -/
def sampleProject : Project := mkProject ⟨"T", "contest", none⟩ "id1" 0

/-- Sample patch payload shared by the concrete witnesses below. -/
def sampleReq : UpdateProjectStepsRequest :=
  ⟨some 3, some [("step1", some "B")]⟩

/-- The concrete row stored after creating `sampleProject` and applying
`sampleReq` to it at instant 5. -/
def sampleReached : Project :=
  { project_id := "id1", title := "T", mode := "contest", description := none,
    last_step := 3, step0 := none, step1 := some "B", step2 := none,
    step3 := none, step4 := none, step5 := none,
    created_at := 0, updated_at := 5 }

/-! Helper lemmas about the update machinery. -/

theorem setStep_proj0 (p : Project) (k : String) (v : Option String) :
    (setStep p k v).step0 = if k = "step0" then v else p.step0 := by
  unfold setStep; split_ifs with h1 h2 h3 h4 h5 h6 <;> simp_all

theorem setStep_proj1 (p : Project) (k : String) (v : Option String) :
    (setStep p k v).step1 = if k = "step1" then v else p.step1 := by
  unfold setStep; split_ifs with h1 h2 h3 h4 h5 h6 <;> simp_all

theorem setStep_proj2 (p : Project) (k : String) (v : Option String) :
    (setStep p k v).step2 = if k = "step2" then v else p.step2 := by
  unfold setStep; split_ifs with h1 h2 h3 h4 h5 h6 <;> simp_all

theorem setStep_proj3 (p : Project) (k : String) (v : Option String) :
    (setStep p k v).step3 = if k = "step3" then v else p.step3 := by
  unfold setStep; split_ifs with h1 h2 h3 h4 h5 h6 <;> simp_all

theorem setStep_proj4 (p : Project) (k : String) (v : Option String) :
    (setStep p k v).step4 = if k = "step4" then v else p.step4 := by
  unfold setStep; split_ifs with h1 h2 h3 h4 h5 h6 <;> simp_all

theorem setStep_proj5 (p : Project) (k : String) (v : Option String) :
    (setStep p k v).step5 = if k = "step5" then v else p.step5 := by
  unfold setStep; split_ifs with h1 h2 h3 h4 h5 h6 <;> simp_all

theorem setStep_project_id (p : Project) (k : String) (v : Option String) :
    (setStep p k v).project_id = p.project_id := by
  unfold setStep; split_ifs <;> rfl

theorem setStep_title (p : Project) (k : String) (v : Option String) :
    (setStep p k v).title = p.title := by
  unfold setStep; split_ifs <;> rfl

theorem setStep_mode (p : Project) (k : String) (v : Option String) :
    (setStep p k v).mode = p.mode := by
  unfold setStep; split_ifs <;> rfl

theorem setStep_description (p : Project) (k : String) (v : Option String) :
    (setStep p k v).description = p.description := by
  unfold setStep; split_ifs <;> rfl

theorem setStep_last_step (p : Project) (k : String) (v : Option String) :
    (setStep p k v).last_step = p.last_step := by
  unfold setStep; split_ifs <;> rfl

theorem setStep_created_at (p : Project) (k : String) (v : Option String) :
    (setStep p k v).created_at = p.created_at := by
  unfold setStep; split_ifs <;> rfl

theorem setStep_updated_at (p : Project) (k : String) (v : Option String) :
    (setStep p k v).updated_at = p.updated_at := by
  unfold setStep; split_ifs <;> rfl

theorem matchGetD (o y : Option (Option String)) (d : Option String) :
    (match o with | some v => some v | none => y).getD d = o.getD (y.getD d) := by
  cases o <;> rfl

theorem iteSomeGetD (c : Prop) [Decidable c] (a d : Option String) :
    ((if c then some a else none).getD d) = if c then a else d := by
  split <;> rfl

/-- Closed form of the `setattr` loop (`app.py` lines 188-189): each slot
column ends up at the last value bound to its name, other slots and all
non-slot columns are untouched. -/
theorem foldl_setStep_eq (l : List (String × Option String)) (p : Project) :
    l.foldl (fun q kv => setStep q kv.1 kv.2) p =
      { p with
          step0 := (lookupLast l "step0").getD p.step0
          step1 := (lookupLast l "step1").getD p.step1
          step2 := (lookupLast l "step2").getD p.step2
          step3 := (lookupLast l "step3").getD p.step3
          step4 := (lookupLast l "step4").getD p.step4
          step5 := (lookupLast l "step5").getD p.step5 } := by
  induction l generalizing p with
  | nil => rfl
  | cons kv rest ih =>
      rw [List.foldl_cons, ih]
      show _ = ({ p with
          step0 := (lookupLast (kv :: rest) "step0").getD p.step0
          step1 := (lookupLast (kv :: rest) "step1").getD p.step1
          step2 := (lookupLast (kv :: rest) "step2").getD p.step2
          step3 := (lookupLast (kv :: rest) "step3").getD p.step3
          step4 := (lookupLast (kv :: rest) "step4").getD p.step4
          step5 := (lookupLast (kv :: rest) "step5").getD p.step5 } : Project)
      simp only [lookupLast, matchGetD, iteSomeGetD,
        setStep_proj0, setStep_proj1, setStep_proj2, setStep_proj3,
        setStep_proj4, setStep_proj5, setStep_project_id, setStep_title,
        setStep_mode, setStep_description, setStep_last_step,
        setStep_created_at, setStep_updated_at]

/-- Closed form of the whole update body: `last_step` is overwritten exactly
when supplied, each slot column is overwritten exactly when the normalized
dict binds its name, and `updated_at` is stamped. -/
theorem applyUpdate_eq (req : UpdateProjectStepsRequest) (now : Nat) (p : Project) :
    applyUpdate req now p =
      { p with
          last_step := req.last_step.getD p.last_step
          step0 := (lookupLast (normalize_steps (req.steps.getD [])) "step0").getD p.step0
          step1 := (lookupLast (normalize_steps (req.steps.getD [])) "step1").getD p.step1
          step2 := (lookupLast (normalize_steps (req.steps.getD [])) "step2").getD p.step2
          step3 := (lookupLast (normalize_steps (req.steps.getD [])) "step3").getD p.step3
          step4 := (lookupLast (normalize_steps (req.steps.getD [])) "step4").getD p.step4
          step5 := (lookupLast (normalize_steps (req.steps.getD [])) "step5").getD p.step5
          updated_at := now } := by
  rcases req with ⟨ls, st⟩
  rcases st with _ | l
  · cases ls <;> rfl
  · rcases l with _ | ⟨kv, rest⟩
    · cases ls <;> rfl
    · cases ls with
      | none =>
          show ({ (normalize_steps (kv :: rest)).foldl
              (fun q kv => setStep q kv.1 kv.2) p with updated_at := now } :
              Project) = _
          rw [foldl_setStep_eq]; rfl
      | some n =>
          show ({ (normalize_steps (kv :: rest)).foldl
              (fun q kv => setStep q kv.1 kv.2)
              { p with last_step := n } with updated_at := now } :
              Project) = _
          rw [foldl_setStep_eq]; rfl

theorem applyUpdate_project_id (req : UpdateProjectStepsRequest) (now : Nat)
    (p : Project) : (applyUpdate req now p).project_id = p.project_id := by
  rw [applyUpdate_eq]

theorem lookupLast_eq_none (l : List (String × Option String)) (k : String)
    (h : ∀ kv ∈ l, kv.1 ≠ k) : lookupLast l k = none := by
  induction l with
  | nil => rfl
  | cons kv rest ih =>
      unfold lookupLast
      rw [ih (fun kv hm => h kv (List.mem_cons_of_mem _ hm))]
      simp [h kv (List.mem_cons_self _ _)]

/-- Under distinct keys (a Python dict) the last binding of a key is its only
binding, so last-wins lookup agrees with standard first-match lookup. -/
theorem lookupLast_eq_lookup (l : List (String × Option String)) (k : String)
    (hnd : (l.map Prod.fst).Nodup) : lookupLast l k = l.lookup k := by
  induction l with
  | nil => rfl
  | cons kv rest ih =>
      simp only [List.map_cons, List.nodup_cons] at hnd
      unfold lookupLast
      rw [ih hnd.2]
      rcases kv with ⟨a, b⟩
      by_cases hk : a = k
      · have hnone : rest.lookup k = none := by
          rw [List.lookup_eq_none_iff]
          intro q hq
          have : q.1 ≠ k := by
            intro he
            have hmem : q.1 ∈ List.map Prod.fst rest :=
              List.mem_map_of_mem Prod.fst hq
            rw [he, ← hk] at hmem
            exact hnd.1 hmem
          simpa using Ne.symm this
        rw [hnone, List.lookup_cons]
        have : (k == a) = true := by simpa using hk.symm
        simp [this, hk]
      · rw [List.lookup_cons]
        have : (k == a) = false := beq_eq_false_iff_ne.mpr (fun he => hk he.symm)
        rw [this]
        cases rest.lookup k <;> simp [hk]

/-- Whatever predicate all rows satisfy and `f` preserves keeps holding after
replacing the first matching row by its `f`-image. -/
theorem replaceFirst_pres (db : List Project) (pid : String)
    (f : Project → Project) (P : Project → Prop)
    (hall : ∀ p ∈ db, P p) (hf : ∀ p, P p → P (f p)) :
    ∀ q ∈ replaceFirst db pid f, P q := by
  induction db with
  | nil => intro q hq; cases hq
  | cons p rest ih =>
      intro q hq
      unfold replaceFirst at hq
      split at hq
      · rcases List.mem_cons.mp hq with h | h
        · exact h ▸ hf p (hall p (List.mem_cons_self _ _))
        · exact hall q (List.mem_cons_of_mem _ h)
      · rcases List.mem_cons.mp hq with h | h
        · exact h ▸ hall p (List.mem_cons_self _ _)
        · exact ih (fun r hr => hall r (List.mem_cons_of_mem _ hr)) q h

/-- Finding the updated row: if `p` is the first row matching `pid`, then
after `replaceFirst` the first row matching `pid` is `f p`, provided `f`
keeps the id. -/
theorem find?_replaceFirst (db : List Project) (pid : String)
    (f : Project → Project) (p : Project)
    (hid : ∀ q, (f q).project_id = q.project_id)
    (h : db.find? (fun q => decide (q.project_id = pid)) = some p) :
    (replaceFirst db pid f).find? (fun q => decide (q.project_id = pid)) =
      some (f p) := by
  induction db with
  | nil => cases h
  | cons r rest ih =>
      unfold replaceFirst
      by_cases hr : r.project_id = pid
      · rw [if_pos hr]
        rw [List.find?_cons_of_pos _ (by simpa using hr)] at h
        rw [List.find?_cons_of_pos _ (by simpa using (hid r).trans hr)]
        cases h; rfl
      · rw [if_neg hr]
        rw [List.find?_cons_of_neg _ (by simpa using hr)] at h
        rw [List.find?_cons_of_neg _ (by simpa using hr)]
        exact ih h

/-- Rows other than the first matching one are untouched by `replaceFirst`. -/
theorem find?_replaceFirst_other (db : List Project) (pid pid2 : String)
    (f : Project → Project) (hne : pid ≠ pid2)
    (hid : ∀ q, (f q).project_id = q.project_id) :
    (replaceFirst db pid f).find? (fun q => decide (q.project_id = pid2)) =
      db.find? (fun q => decide (q.project_id = pid2)) := by
  induction db with
  | nil => rfl
  | cons r rest ih =>
      unfold replaceFirst
      by_cases hr : r.project_id = pid
      · rw [if_pos hr]
        have h2 : ¬ (f r).project_id = pid2 := by rw [hid r, hr]; exact hne
        have h3 : ¬ r.project_id = pid2 := by rw [hr]; exact hne
        rw [List.find?_cons_of_neg _ (by simpa using h2),
            List.find?_cons_of_neg _ (by simpa using h3)]
      · rw [if_neg hr]
        by_cases h2 : r.project_id = pid2
        · rw [List.find?_cons_of_pos _ (by simpa using h2),
              List.find?_cons_of_pos _ (by simpa using h2)]
        · rw [List.find?_cons_of_neg _ (by simpa using h2),
              List.find?_cons_of_neg _ (by simpa using h2)]
          exact ih

theorem update_project_ok (db : List Project) (pid : String)
    (req : UpdateProjectStepsRequest) (now : Nat) (p : Project)
    (hvalid : validUpdateReq req = true)
    (hfind : db.find? (fun q => decide (q.project_id = pid)) = some p) :
    update_project_steps db pid req now =
      .ok (replaceFirst db pid (applyUpdate req now), "updated") := by
  unfold update_project_steps
  rw [if_pos hvalid, hfind]

theorem get_project_ok (db : List Project) (pid : String) (p : Project)
    (hfind : db.find? (fun q => decide (q.project_id = pid)) = some p) :
    get_project db pid =
      .ok { project_id := p.project_id
            title := p.title
            mode := p.mode
            description := p.description
            last_step := p.last_step
            steps := get_steps_dict p } := by
  unfold get_project
  rw [hfind]

theorem nodup_keys_normalize (l : List (String × Option String))
    (hnd : (l.map Prod.fst).Nodup) :
    ((normalize_steps l).map Prod.fst).Nodup :=
  hnd.sublist ((List.filter_sublist l).map Prod.fst)

theorem applyUpdate_stepVal (req : UpdateProjectStepsRequest) (now : Nat)
    (p : Project) (k : String) (hk : k ∈ allowedSteps)
    (hnd : ((req.steps.getD []).map Prod.fst).Nodup) :
    stepVal (applyUpdate req now p) k =
      ((normalize_steps (req.steps.getD [])).lookup k).getD (stepVal p k) := by
  rw [applyUpdate_eq]
  rw [← lookupLast_eq_lookup _ _ (nodup_keys_normalize _ hnd)]
  simp only [allowedSteps, List.mem_cons, List.not_mem_nil, or_false] at hk
  rcases hk with rfl | rfl | rfl | rfl | rfl | rfl <;> rfl

theorem getD_idem {α : Type} (o : Option α) (d : α) :
    o.getD (o.getD d) = o.getD d := by
  cases o <;> rfl

/-- Re-applying the same update payload only refreshes the timestamp. -/
theorem applyUpdate_applyUpdate (req : UpdateProjectStepsRequest)
    (now1 now2 : Nat) (p : Project) :
    applyUpdate req now2 (applyUpdate req now1 p) =
      { applyUpdate req now1 p with updated_at := now2 } := by
  rw [applyUpdate_eq req now1 p, applyUpdate_eq req now2]
  simp only [getD_idem]

/-- Reading a named slot out of the six-slot dict of a row. -/
theorem get_steps_dict_lookup (p : Project) (k : String)
    (hk : k ∈ allowedSteps) :
    (get_steps_dict p).lookup k = some (stepVal p k) := by
  simp only [allowedSteps, List.mem_cons, List.not_mem_nil, or_false] at hk
  rcases hk with rfl | rfl | rfl | rfl | rfl | rfl <;> rfl

/-- C1: for every existing project and every update_project call, the stored
step mapping afterwards equals the previous mapping overwritten exactly at
the keys of the normalized steps input (a named valid slot takes the
submitted value, including `none` which clears it; every other slot keeps
its previous value), and `last_step` is overwritten exactly when supplied. -/
theorem claim_C1 (db : List Project) (pid : String)
    (req : UpdateProjectStepsRequest) (now : Nat) (p : Project)
    (hvalid : validUpdateReq req = true)
    (hnd : ((req.steps.getD []).map Prod.fst).Nodup)
    (hfind : db.find? (fun q => decide (q.project_id = pid)) = some p) :
    ∃ db' p', update_project_steps db pid req now = .ok (db', "updated") ∧
      db'.find? (fun q => decide (q.project_id = pid)) = some p' ∧
      (∀ k ∈ allowedSteps,
        stepVal p' k =
          ((normalize_steps (req.steps.getD [])).lookup k).getD (stepVal p k)) ∧
      p'.last_step = req.last_step.getD p.last_step := by
  refine ⟨replaceFirst db pid (applyUpdate req now), applyUpdate req now p,
    update_project_ok db pid req now p hvalid hfind,
    find?_replaceFirst db pid _ p (applyUpdate_project_id req now) hfind,
    fun k hk => applyUpdate_stepVal req now p k hk hnd, ?_⟩
  rw [applyUpdate_eq]

theorem claim_C1_witness :
    validUpdateReq sampleReq = true ∧
    ((sampleReq.steps.getD []).map Prod.fst).Nodup ∧
    ∃ db' p',
      update_project_steps [sampleProject] "id1" sampleReq 5 =
        .ok (db', "updated") ∧
      db'.find? (fun q => decide (q.project_id = "id1")) = some p' ∧
      (∀ k ∈ allowedSteps,
        stepVal p' k =
          ((normalize_steps (sampleReq.steps.getD [])).lookup k).getD
            (stepVal sampleProject k)) ∧
      p'.last_step = sampleReq.last_step.getD sampleProject.last_step :=
  ⟨by decide, by decide,
    claim_C1 [sampleProject] "id1" sampleReq 5 sampleProject
      (by decide) (by decide) rfl⟩

/-- C3 counterexample: a create request with an empty title and a valid mode
is accepted and a record is created, contradicting the claim that
`create_project` fails with `ValidationError` whenever `title` is empty and
that no record is created for such a request. -/
theorem claim_C3_counterexample :
    ("" : String).isEmpty = true ∧
    create_project [] ⟨"", "contest", none⟩ "id0" 7 =
      .ok ([mkProject ⟨"", "contest", none⟩ "id0" 7],
           { project_id := "id0" }) :=
  ⟨rfl, rfl⟩

/-- C3 (amended): `create_project` fails with `ValidationError` exactly when
`mode` is not one of {contest, education, startup}; when it fails no record
is created, and otherwise (in particular for an empty title) exactly the new
record is appended. -/
theorem claim_C3 (db : List Project) (req : CreateProjectRequest)
    (newId : String) (now : Nat) :
    (validMode req.mode = false →
      create_project db req newId now = .error .validation) ∧
    (validMode req.mode = true →
      create_project db req newId now =
        .ok (db ++ [mkProject req newId now], { project_id := newId })) := by
  constructor <;> intro h <;> simp [create_project, h]

theorem claim_C3_witness :
    validMode "invalid-mode" = false ∧
    create_project [] ⟨"x", "invalid-mode", none⟩ "i" 0 = .error .validation :=
  ⟨by decide, (claim_C3 [] ⟨"x", "invalid-mode", none⟩ "i" 0).1 (by decide)⟩

/-- C5: `get_project` signals not-found exactly when no stored row carries
the requested id; `update_project` (with a well-formed payload) likewise;
and a failed update leaves the table exactly as it was. -/
theorem claim_C5 (db : List Project) (pid : String)
    (req : UpdateProjectStepsRequest) (now : Nat) :
    (get_project db pid = .error .notFound ↔ ∀ p ∈ db, p.project_id ≠ pid) ∧
    (validUpdateReq req = true →
      (update_project_steps db pid req now = .error .notFound ↔
        ∀ p ∈ db, p.project_id ≠ pid)) ∧
    (∀ e, update_project_steps db pid req now = .error e →
      applyOp db (.update pid req now) = db) := by
  have hiff : db.find? (fun q => decide (q.project_id = pid)) = none ↔
      ∀ p ∈ db, p.project_id ≠ pid := by
    rw [List.find?_eq_none]
    constructor
    · intro h p hp
      simpa using h p hp
    · intro h p hp
      simpa using h p hp
  refine ⟨?_, fun hvalid => ?_, fun e h => ?_⟩
  · rw [← hiff]
    unfold get_project
    cases hf : db.find? (fun q => decide (q.project_id = pid)) with
    | none => simp
    | some p => simp
  · rw [← hiff]
    unfold update_project_steps
    rw [if_pos hvalid]
    cases hf : db.find? (fun q => decide (q.project_id = pid)) with
    | none => simp
    | some p => simp
  · show (match update_project_steps db pid req now with
      | .ok (db', _) => db'
      | .error _ => db) = db
    rw [h]

theorem claim_C5_witness :
    validUpdateReq ⟨none, none⟩ = true ∧
    (update_project_steps [] "nonexistent-id" ⟨none, none⟩ 0 =
        .error .notFound ↔
      ∀ p ∈ ([] : List Project), p.project_id ≠ "nonexistent-id") :=
  ⟨by decide, (claim_C5 [] "nonexistent-id" ⟨none, none⟩ 0).2.1 (by decide)⟩

/-- C6: creating a project with a fresh id and immediately fetching it
returns exactly the provided title, mode and description, with
`last_step = 0` and all six step slots absent. -/
theorem claim_C6 (db : List Project) (req : CreateProjectRequest)
    (newId : String) (now : Nat)
    (hmode : validMode req.mode = true)
    (hfresh : ∀ p ∈ db, p.project_id ≠ newId) :
    ∃ db', create_project db req newId now = .ok (db', { project_id := newId }) ∧
      get_project db' newId = .ok
        { project_id := newId
          title := req.title
          mode := req.mode
          description := req.description
          last_step := 0
          steps := [("step0", none), ("step1", none), ("step2", none),
                    ("step3", none), ("step4", none), ("step5", none)] } := by
  refine ⟨db ++ [mkProject req newId now], ?_, ?_⟩
  · unfold create_project
    rw [if_pos hmode]
  · have hnone : db.find? (fun q => decide (q.project_id = newId)) = none := by
      rw [List.find?_eq_none]
      intro x hx
      simpa using hfresh x hx
    have hfind : (db ++ [mkProject req newId now]).find?
        (fun q => decide (q.project_id = newId)) =
        some (mkProject req newId now) := by
      rw [List.find?_append, hnone]
      simp [mkProject]
    rw [get_project_ok _ _ _ hfind]
    rfl

theorem claim_C6_witness :
    validMode "contest" = true ∧
    (∀ p ∈ ([] : List Project), p.project_id ≠ "n1") ∧
    ∃ db', create_project [] ⟨"Alpha", "contest", some "d"⟩ "n1" 7 =
        .ok (db', { project_id := "n1" }) ∧
      get_project db' "n1" = .ok
        { project_id := "n1", title := "Alpha", mode := "contest",
          description := some "d", last_step := 0,
          steps := [("step0", none), ("step1", none), ("step2", none),
                    ("step3", none), ("step4", none), ("step5", none)] } :=
  ⟨by decide, by decide,
    claim_C6 [] ⟨"Alpha", "contest", some "d"⟩ "n1" 7 (by decide) (by decide)⟩

/-- C7: every successful update leaves `project_id`, `title`, `mode`,
`description` and `created_at` unchanged and stamps `updated_at` with the
call's instant; a payload with neither `last_step` nor `steps` still succeeds
and changes nothing but `updated_at`. -/
theorem claim_C7 (db : List Project) (pid : String)
    (req : UpdateProjectStepsRequest) (now : Nat) (p : Project)
    (hvalid : validUpdateReq req = true)
    (hfind : db.find? (fun q => decide (q.project_id = pid)) = some p) :
    ∃ db' p', update_project_steps db pid req now = .ok (db', "updated") ∧
      db'.find? (fun q => decide (q.project_id = pid)) = some p' ∧
      p'.project_id = p.project_id ∧ p'.title = p.title ∧ p'.mode = p.mode ∧
      p'.description = p.description ∧ p'.created_at = p.created_at ∧
      p'.updated_at = now ∧
      (req.last_step = none → req.steps = none →
        p' = { p with updated_at := now }) := by
  refine ⟨replaceFirst db pid (applyUpdate req now), applyUpdate req now p,
    update_project_ok db pid req now p hvalid hfind,
    find?_replaceFirst db pid _ p (applyUpdate_project_id req now) hfind,
    ?_, ?_, ?_, ?_, ?_, ?_, ?_⟩
  · rw [applyUpdate_eq]
  · rw [applyUpdate_eq]
  · rw [applyUpdate_eq]
  · rw [applyUpdate_eq]
  · rw [applyUpdate_eq]
  · rw [applyUpdate_eq]
  · intro h1 h2
    rcases req with ⟨ls, st⟩
    simp only at h1 h2
    subst h1
    subst h2
    rfl

theorem claim_C7_witness :
    validUpdateReq ⟨none, none⟩ = true ∧
    ∃ db' p', update_project_steps [sampleProject] "id1" ⟨none, none⟩ 9 =
        .ok (db', "updated") ∧
      db'.find? (fun q => decide (q.project_id = "id1")) = some p' ∧
      p'.project_id = sampleProject.project_id ∧
      p'.title = sampleProject.title ∧ p'.mode = sampleProject.mode ∧
      p'.description = sampleProject.description ∧
      p'.created_at = sampleProject.created_at ∧
      p'.updated_at = 9 ∧
      ((⟨none, none⟩ : UpdateProjectStepsRequest).last_step = none →
        (⟨none, none⟩ : UpdateProjectStepsRequest).steps = none →
        p' = { sampleProject with updated_at := 9 }) :=
  ⟨by decide,
    claim_C7 [sampleProject] "id1" ⟨none, none⟩ 9 sampleProject
      (by decide) rfl⟩

/-- C8: update_project is idempotent up to the timestamp: applying the same
valid payload twice in succession leaves the stored record after the second
call equal to the record after the first call in every field except
`updated_at`. -/
theorem claim_C8 (db : List Project) (pid : String)
    (req : UpdateProjectStepsRequest) (now1 now2 : Nat) (p : Project)
    (hvalid : validUpdateReq req = true)
    (hfind : db.find? (fun q => decide (q.project_id = pid)) = some p) :
    ∃ db1 p1 db2,
      update_project_steps db pid req now1 = .ok (db1, "updated") ∧
      db1.find? (fun q => decide (q.project_id = pid)) = some p1 ∧
      update_project_steps db1 pid req now2 = .ok (db2, "updated") ∧
      db2.find? (fun q => decide (q.project_id = pid)) =
        some { p1 with updated_at := now2 } := by
  have h1 := update_project_ok db pid req now1 p hvalid hfind
  have hf1 := find?_replaceFirst db pid _ p (applyUpdate_project_id req now1) hfind
  have h2 := update_project_ok _ pid req now2 _ hvalid hf1
  have hf2 := find?_replaceFirst _ pid _ _ (applyUpdate_project_id req now2) hf1
  refine ⟨_, applyUpdate req now1 p, _, h1, hf1, h2, ?_⟩
  rw [hf2, applyUpdate_applyUpdate]

theorem claim_C8_witness :
    validUpdateReq sampleReq = true ∧
    ∃ db1 p1 db2,
      update_project_steps [sampleProject] "id1" sampleReq 5 =
        .ok (db1, "updated") ∧
      db1.find? (fun q => decide (q.project_id = "id1")) = some p1 ∧
      update_project_steps db1 "id1" sampleReq 9 = .ok (db2, "updated") ∧
      db2.find? (fun q => decide (q.project_id = "id1")) =
        some { p1 with updated_at := 9 } :=
  ⟨by decide,
    claim_C8 [sampleProject] "id1" sampleReq 5 9 sampleProject
      (by decide) rfl⟩

/-- Normalization is the restriction of the input dict to the six slot
names: lookup of an allowed key is unchanged, lookup of any other key
comes back empty. -/
theorem normalize_steps_lookup (steps : List (String × Option String))
    (k : String) :
    (normalize_steps steps).lookup k =
      if k ∈ allowedSteps then steps.lookup k else none := by
  induction steps with
  | nil =>
      simp only [normalize_steps, List.filter_nil]
      split <;> rfl
  | cons kv rest ih =>
      rcases kv with ⟨a, b⟩
      by_cases ha : a ∈ allowedSteps
      · rw [normalize_steps, List.filter_cons_of_pos (by simpa using ha)]
        rw [List.lookup_cons, List.lookup_cons]
        by_cases hk : k = a
        · have : (k == a) = true := by simpa using hk
          rw [this]
          rw [if_pos (hk ▸ ha)]
        · have : (k == a) = false := beq_eq_false_iff_ne.mpr hk
          rw [this]
          exact ih
      · rw [normalize_steps, List.filter_cons_of_neg (by simpa using ha)]
        rw [show List.filter (fun kv => decide (kv.1 ∈ allowedSteps)) rest =
          normalize_steps rest from rfl, ih]
        by_cases hin : k ∈ allowedSteps
        · rw [if_pos hin, if_pos hin, List.lookup_cons]
          have : (k == a) = false :=
            beq_eq_false_iff_ne.mpr (fun he => ha (he ▸ hin))
          rw [this]
        · rw [if_neg hin, if_neg hin]

/-- C2: Step Schema normalization returns exactly the restriction of its
input to the six slot names `step0`..`step5`, values unchanged and with no
failure mode; consequently after an update whose `steps` contain unknown
keys, every subsequent `get_project` result carries exactly the six slot
keys (the unknown keys never appear) while the valid slots submitted in the
same call are applied. -/
theorem claim_C2 :
    (∀ (steps : List (String × Option String)) (k : String),
      (normalize_steps steps).lookup k =
        if k ∈ allowedSteps then steps.lookup k else none) ∧
    (∀ (db : List Project) (pid : String) (detail : ProjectDetail),
      get_project db pid = .ok detail →
        detail.steps.map Prod.fst = allowedSteps) ∧
    (∀ (db : List Project) (pid : String) (req : UpdateProjectStepsRequest)
        (now : Nat) (p : Project),
      validUpdateReq req = true →
      ((req.steps.getD []).map Prod.fst).Nodup →
      db.find? (fun q => decide (q.project_id = pid)) = some p →
      ∃ db' detail,
        update_project_steps db pid req now = .ok (db', "updated") ∧
        get_project db' pid = .ok detail ∧
        ∀ k v, (normalize_steps (req.steps.getD [])).lookup k = some v →
          detail.steps.lookup k = some v) := by
  refine ⟨normalize_steps_lookup, ?_, ?_⟩
  · intro db pid detail h
    unfold get_project at h
    cases hf : db.find? (fun q => decide (q.project_id = pid)) with
    | none => rw [hf] at h; cases h
    | some p =>
        rw [hf] at h
        cases h
        rfl
  · intro db pid req now p hvalid hnd hfind
    refine ⟨replaceFirst db pid (applyUpdate req now), _,
      update_project_ok db pid req now p hvalid hfind,
      get_project_ok _ _ _
        (find?_replaceFirst db pid _ p (applyUpdate_project_id req now) hfind),
      ?_⟩
    intro k v hkv
    have hk : k ∈ allowedSteps := by
      by_contra hk
      rw [normalize_steps_lookup, if_neg hk] at hkv
      cases hkv
    show (get_steps_dict (applyUpdate req now p)).lookup k = some v
    rw [get_steps_dict_lookup _ _ hk, applyUpdate_stepVal req now p k hk hnd,
      hkv]
    rfl

theorem claim_C2_witness :
    validUpdateReq ⟨none, some [("stepX", some "ignored"), ("step2", some "C")]⟩
        = true ∧
    (((⟨none, some [("stepX", some "ignored"), ("step2", some "C")]⟩ :
        UpdateProjectStepsRequest).steps.getD []).map Prod.fst).Nodup ∧
    ∃ db' detail,
      update_project_steps [sampleProject] "id1"
          ⟨none, some [("stepX", some "ignored"), ("step2", some "C")]⟩ 5 =
        .ok (db', "updated") ∧
      get_project db' "id1" = .ok detail ∧
      ∀ k v, (normalize_steps
          ((⟨none, some [("stepX", some "ignored"), ("step2", some "C")]⟩ :
            UpdateProjectStepsRequest).steps.getD [])).lookup k = some v →
        detail.steps.lookup k = some v :=
  ⟨by decide, by decide,
    claim_C2.2.2 [sampleProject] "id1"
      ⟨none, some [("stepX", some "ignored"), ("step2", some "C")]⟩ 5
      sampleProject (by decide) (by decide) rfl⟩

theorem applyOp_create (db : List Project) (req : CreateProjectRequest)
    (newId : String) (now : Nat) :
    applyOp db (.create req newId now) =
      if validMode req.mode then db ++ [mkProject req newId now] else db := by
  show (match create_project db req newId now with
    | .ok (db', _) => db'
    | .error _ => db) = _
  unfold create_project
  by_cases h : validMode req.mode = true
  · rw [if_pos h, if_pos h]
  · rw [if_neg h, if_neg h]

/-- C9: every project record reachable through any sequence of create and
update operations has a mode among {contest, education, startup}, a
`last_step` within `[0, 5]`, and a step mapping carrying exactly the six
slots `step0`..`step5`. -/
theorem claim_C9 (db : List Project) (h : Reachable db) :
    ∀ p ∈ db, validMode p.mode = true ∧
      (0 ≤ p.last_step ∧ p.last_step ≤ 5) ∧
      (get_steps_dict p).map Prod.fst = allowedSteps := by
  induction h with
  | nil => intro p hp; exact absurd hp (List.not_mem_nil p)
  | step op hdb ih =>
      rename_i db0
      cases op with
      | create req newId now =>
          intro p hp
          rw [applyOp_create] at hp
          by_cases hv : validMode req.mode = true
          · rw [if_pos hv] at hp
            rcases List.mem_append.mp hp with hmem | hmem
            · exact ih p hmem
            · rcases List.mem_singleton.mp hmem with rfl
              exact ⟨hv, ⟨le_refl 0, by norm_num [mkProject]⟩, rfl⟩
          · rw [if_neg hv] at hp
            exact ih p hp
      | update pid req now =>
          intro p hp
          have hp' : p ∈ (match update_project_steps db0 pid req now with
              | .ok (db', _) => db'
              | .error _ => db0) := hp
          cases hu : update_project_steps db0 pid req now with
          | error e =>
              rw [hu] at hp'
              exact ih p hp'
          | ok pair =>
              obtain ⟨db', s⟩ := pair
              rw [hu] at hp'
              unfold update_project_steps at hu
              by_cases hvq : validUpdateReq req = true
              · rw [if_pos hvq] at hu
                cases hf : db0.find? (fun q => decide (q.project_id = pid)) with
                | none => rw [hf] at hu; cases hu
                | some q =>
                    rw [hf] at hu
                    cases hu
                    refine replaceFirst_pres db0 pid _
                      (fun r => validMode r.mode = true ∧
                        (0 ≤ r.last_step ∧ r.last_step ≤ 5) ∧
                        (get_steps_dict r).map Prod.fst = allowedSteps)
                      ih ?_ p hp'
                    intro r hr
                    refine ⟨?_, ⟨?_, ?_⟩, rfl⟩
                    · rw [applyUpdate_eq]
                      exact hr.1
                    · rw [applyUpdate_eq]
                      show 0 ≤ req.last_step.getD r.last_step
                      cases hls : req.last_step with
                      | none => exact hr.2.1.1
                      | some n =>
                          have hb := hvq
                          unfold validUpdateReq at hb
                          rw [hls] at hb
                          simp only [Bool.and_eq_true, decide_eq_true_eq] at hb
                          exact hb.1
                    · rw [applyUpdate_eq]
                      show req.last_step.getD r.last_step ≤ 5
                      cases hls : req.last_step with
                      | none => exact hr.2.1.2
                      | some n =>
                          have hb := hvq
                          unfold validUpdateReq at hb
                          rw [hls] at hb
                          simp only [Bool.and_eq_true, decide_eq_true_eq] at hb
                          exact hb.2
              · rw [if_neg hvq] at hu
                cases hu

theorem claim_C9_witness :
    validMode sampleReached.mode = true ∧
    (0 ≤ sampleReached.last_step ∧ sampleReached.last_step ≤ 5) ∧
    (get_steps_dict sampleReached).map Prod.fst = allowedSteps :=
  claim_C9
    (applyOp (applyOp [] (.create ⟨"T", "contest", none⟩ "id1" 0))
      (.update "id1" sampleReq 5))
    (Reachable.step _ (Reachable.step _ Reachable.nil))
    sampleReached (by decide)

/-- One-step unfolding of the `LIKE` worker at successor fuel. -/
theorem likeMatchAux_cons (fuel : Nat) (pc : Char) (ps s : List Char) :
    likeMatchAux (fuel + 1) (pc :: ps) s =
      (if pc = '%' then
        likeMatchAux fuel ps s ||
          (match s with
           | [] => false
           | _ :: s' => likeMatchAux fuel (pc :: ps) s')
      else if pc = '_' then
        (match s with
         | [] => false
         | _ :: s' => likeMatchAux fuel ps s')
      else
        (match s with
         | [] => false
         | c :: s' =>
             decide (asciiLower pc = asciiLower c) && likeMatchAux fuel ps s')) :=
  rfl

/-- The `LIKE` worker is insensitive to one extra unit of fuel once the fuel
covers the combined length of pattern and text. -/
theorem likeMatchAux_succ : ∀ (m : Nat) (p s : List Char),
    p.length + s.length ≤ m →
    likeMatchAux (m + 1) p s = likeMatchAux m p s := by
  intro m
  induction m with
  | zero =>
      intro p s h
      cases p with
      | nil =>
          cases s with
          | nil => rfl
          | cons c s' => simp at h
      | cons pc ps =>
          simp only [List.length_cons] at h
          omega
  | succ m ih =>
      intro p s h
      cases p with
      | nil => cases s <;> rfl
      | cons pc ps =>
          simp only [List.length_cons] at h
          rw [likeMatchAux_cons (m + 1) pc ps s, likeMatchAux_cons m pc ps s]
          by_cases h1 : pc = '%'
          · rw [if_pos h1, if_pos h1]
            cases s with
            | nil =>
                dsimp only
                rw [ih ps [] (by simp only [List.length_nil] at h ⊢; omega)]
            | cons c s' =>
                dsimp only
                rw [ih ps (c :: s')
                      (by simp only [List.length_cons] at h ⊢; omega),
                    ih (pc :: ps) s'
                      (by simp only [List.length_cons] at h ⊢; omega)]
          · rw [if_neg h1, if_neg h1]
            by_cases h2 : pc = '_'
            · rw [if_pos h2, if_pos h2]
              cases s with
              | nil => rfl
              | cons c s' =>
                  dsimp only
                  rw [ih ps s'
                    (by simp only [List.length_cons] at h ⊢; omega)]
            · rw [if_neg h2, if_neg h2]
              cases s with
              | nil => rfl
              | cons c s' =>
                  dsimp only
                  rw [ih ps s'
                    (by simp only [List.length_cons] at h ⊢; omega)]

/-- Any sufficient fuel computes the canonical `likeMatch` value. -/
theorem likeMatchAux_of_le (m : Nat) (p s : List Char)
    (h : p.length + s.length ≤ m) : likeMatchAux m p s = likeMatch p s := by
  induction m, h using Nat.le_induction with
  | base => rfl
  | succ m hm ih => rw [likeMatchAux_succ m p s hm, ih]

/-- Recursion equation of `likeMatch` for a leading `%` and nonempty text:
either the `%` consumes nothing, or it swallows the first character. -/
theorem likeMatch_percent_cons (ps : List Char) (c : Char) (s : List Char) :
    likeMatch ('%' :: ps) (c :: s) =
      (likeMatch ps (c :: s) || likeMatch ('%' :: ps) s) := by
  have h0 : likeMatch ('%' :: ps) (c :: s) =
      (likeMatchAux (ps.length + 1 + s.length) ps (c :: s) ||
       likeMatchAux (ps.length + 1 + s.length) ('%' :: ps) s) := rfl
  rw [h0,
    likeMatchAux_of_le _ ps (c :: s) (by simp only [List.length_cons]; omega),
    likeMatchAux_of_le _ ('%' :: ps) s (by simp only [List.length_cons]; omega)]

/-- A query consisting of the single wildcard `%` matches every title: the
built pattern `%%%` accepts every string. -/
theorem likeMatch_triple_percent : ∀ s : List Char,
    likeMatch ['%', '%', '%'] s = true := by
  intro s
  induction s with
  | nil => rfl
  | cons c s' ih =>
      rw [likeMatch_percent_cons, ih]
      exact Bool.or_true _

theorem titleLike_percent (s : String) : titleLike "%" s = true := by
  show likeMatch ("%" ++ "%" ++ "%").data s.data = true
  have h : ("%" ++ "%" ++ "%").data = ['%', '%', '%'] := rfl
  rw [h]
  exact likeMatch_triple_percent s.data

/-- The two filter stages of the listing compose into one filter by the
specification-side predicate. -/
theorem filterRows_eq (db : List Project) (query mode : Option String) :
    filterRows db query mode =
      db.filter (fun p => decide (listFilterSpec query mode p)) := by
  unfold filterRows
  dsimp only
  by_cases hq : strTruthy query = true
  · by_cases hm : strTruthy mode = true
    · rw [if_pos hq, if_pos hm, List.filter_filter]
      apply List.filter_congr
      intro p _
      simp [listFilterSpec, hq, hm, Bool.and_comm]
    · rw [if_pos hq, if_neg hm]
      apply List.filter_congr
      intro p _
      simp [listFilterSpec, hq, hm]
  · by_cases hm : strTruthy mode = true
    · rw [if_neg hq, if_pos hm]
      apply List.filter_congr
      intro p _
      simp [listFilterSpec, hq, hm]
    · rw [if_neg hq, if_neg hm]
      exact (List.filter_eq_self.mpr fun p _ => by
        simp [listFilterSpec, hq, hm]).symm

/-- C10: the listing's title filter embeds the raw query between two `%`
wildcards with SQLite `LIKE` semantics, so `%` and `_` in a query act as
wildcards rather than literal characters: a query can match titles that do
not contain it as a substring at all, and the query `%` selects every
project. -/
theorem claim_C10 :
    (∀ s : String, titleLike "%" s = true) ∧
    (titleLike "a_c" "abc" = true ∧ ¬ ("a_c".data <:+: "abc".data)) ∧
    (∀ (db : List Project) (limit : Int),
      1 ≤ limit → limit ≤ 200 → (db.length : Int) ≤ limit →
      ∃ items, list_projects db (some "%") none limit = .ok items ∧
        ∀ p ∈ db, summarize p ∈ items) := by
  refine ⟨titleLike_percent, ⟨by decide, by decide⟩, ?_⟩
  intro db limit h1 h2 hlen
  unfold list_projects
  rw [if_pos (by simp [modeOk, h1, h2])]
  refine ⟨_, rfl, ?_⟩
  intro p hp
  have hall : filterRows db (some "%") none = db := by
    unfold filterRows
    dsimp only
    rw [if_pos (show strTruthy (some "%") = true from rfl),
        if_neg (show ¬ strTruthy none = true by decide)]
    exact List.filter_eq_self.mpr fun q _ => titleLike_percent q.title
  rw [hall]
  have hsortlen : (List.insertionSort updatedGe db).length = db.length :=
    (List.perm_insertionSort updatedGe db).length_eq
  have htake : (List.insertionSort updatedGe db).take limit.toNat =
      List.insertionSort updatedGe db :=
    List.take_of_length_le (by rw [hsortlen]; omega)
  rw [htake]
  exact List.mem_map_of_mem summarize
    (((List.perm_insertionSort updatedGe db).mem_iff).mpr hp)

theorem claim_C10_witness :
    (1 : Int) ≤ 50 ∧ (50 : Int) ≤ 200 ∧
    (([sampleProject].length : Int)) ≤ 50 ∧
    ∃ items, list_projects [sampleProject] (some "%") none 50 = .ok items ∧
      ∀ p ∈ [sampleProject], summarize p ∈ items :=
  ⟨by decide, by decide, by decide,
    claim_C10.2.2 [sampleProject] 50 (by decide) (by decide) (by decide)⟩

/-- C4 counterexample: the stored title "Plan" does not contain the query
"plan" as a case-sensitive substring, yet the listing returns it — SQLite
`LIKE` compares ASCII letters case-insensitively, so the claim's
case-sensitive-substring reading of the filter is false on the code. -/
theorem claim_C4_counterexample :
    list_projects [mkProject ⟨"Plan", "contest", none⟩ "a" 3] (some "plan")
        none 50 =
      .ok [summarize (mkProject ⟨"Plan", "contest", none⟩ "a" 3)] ∧
    ¬ ("plan".data <:+: "Plan".data) :=
  ⟨rfl, by decide⟩

/-- C4 (amended): for every valid listing request, the result is built from
exactly the stored projects whose title matches the SQL `LIKE` pattern
`%text_query%` (`%`/`_` as wildcards, ASCII letters case-insensitive) AND
whose mode equals the supplied mode — each filter skipped when its parameter
is absent or empty — ordered by `updated_at` descending, truncated to at
most `limit` entries, each summary carrying only the five listing fields. -/
theorem claim_C4 (db : List Project) (query mode : Option String)
    (limit : Int) (h1 : 1 ≤ limit) (h2 : limit ≤ 200)
    (hm : ∀ s, mode = some s → validMode s = true) :
    ∃ items, list_projects db query mode limit = .ok items ∧
      items.length ≤ limit.toNat ∧
      (∀ it ∈ items, ∃ p ∈ db,
        listFilterSpec query mode p ∧ it = summarize p) ∧
      items.Pairwise (fun a b => b.updated_at ≤ a.updated_at) ∧
      ((db.filter (fun p => decide (listFilterSpec query mode p))).length ≤
          limit.toNat →
        ∀ p ∈ db, listFilterSpec query mode p → summarize p ∈ items) := by
  have hcond : (decide (1 ≤ limit) && decide (limit ≤ 200) &&
      modeOk mode) = true := by
    rcases mode with _ | m
    · simp [modeOk, h1, h2]
    · simp [modeOk, h1, h2, hm m rfl]
  unfold list_projects
  rw [if_pos hcond, filterRows_eq]
  refine ⟨_, rfl, ?_, ?_, ?_, ?_⟩
  · rw [List.length_map, List.length_take]
    exact min_le_left _ _
  · intro it hit
    rcases List.mem_map.mp hit with ⟨p, hp, rfl⟩
    have hp2 : p ∈ List.insertionSort updatedGe
        (db.filter (fun p => decide (listFilterSpec query mode p))) :=
      (List.take_sublist _ _).mem hp
    have hp3 : p ∈ db.filter (fun p => decide (listFilterSpec query mode p)) :=
      ((List.perm_insertionSort updatedGe _).mem_iff).mp hp2
    rcases List.mem_filter.mp hp3 with ⟨hpdb, hpspec⟩
    exact ⟨p, hpdb, by simpa using hpspec, rfl⟩
  · have hsorted : (List.insertionSort updatedGe
        (db.filter (fun p => decide (listFilterSpec query mode p)))).Pairwise
        updatedGe :=
      List.sorted_insertionSort updatedGe _
    have htaken := hsorted.sublist (List.take_sublist limit.toNat _)
    exact htaken.map summarize (fun a b hab => hab)
  · intro hcount p hp hspec
    have hpf : p ∈ db.filter (fun p => decide (listFilterSpec query mode p)) :=
      List.mem_filter.mpr ⟨hp, by simpa using hspec⟩
    have hlenflt : (List.insertionSort updatedGe
        (db.filter (fun p => decide (listFilterSpec query mode p)))).length =
        (db.filter (fun p => decide (listFilterSpec query mode p))).length :=
      (List.perm_insertionSort updatedGe _).length_eq
    rw [List.take_of_length_le (by rw [hlenflt]; exact hcount)]
    exact List.mem_map_of_mem summarize
      (((List.perm_insertionSort updatedGe _).mem_iff).mpr hpf)

theorem claim_C4_witness :
    (1 : Int) ≤ 50 ∧ (50 : Int) ≤ 200 ∧
    (∀ s, (some "contest" : Option String) = some s → validMode s = true) ∧
    ∃ items, list_projects [sampleProject] (some "T") (some "contest") 50 =
        .ok items ∧
      items.length ≤ (50 : Int).toNat ∧
      (∀ it ∈ items, ∃ p ∈ [sampleProject],
        listFilterSpec (some "T") (some "contest") p ∧ it = summarize p) ∧
      items.Pairwise (fun a b => b.updated_at ≤ a.updated_at) ∧
      (([sampleProject].filter
          (fun p => decide (listFilterSpec (some "T") (some "contest") p))
          ).length ≤ (50 : Int).toNat →
        ∀ p ∈ [sampleProject], listFilterSpec (some "T") (some "contest") p →
          summarize p ∈ items) :=
  ⟨by decide, by decide, by decide,
    claim_C4 [sampleProject] (some "T") (some "contest") 50
      (by decide) (by decide) (by decide)⟩

end DcxCoach
